import Mathlib

/-
Verification of the logging-configuration subsystem
(`src/prefect/logging/configuration.py`).

The embedding models:
  * the structured configuration values produced by parsing the logging
    template (`CVal`, an arbitrarily nested string-keyed mapping whose
    leaves are scalars or opaque collections);
  * the key-path flattener `dict_to_flatdict` / `flatdict_to_dict`
    (imported by the source from `prefect.utilities.collections`);
  * the environment-variable name derivation `to_envvar` plus upper-casing;
  * the environment-override loop of `load_logging_config`;
  * the template substitution / parse pipeline of `load_logging_config`;
  * the one-time configuration gate of `setup_logging`, acting on the
    module global `PROCESS_LOGGING_CONFIG` (initially `None`); and
  * the `prefect.extra` handler-copying loop at the end of `setup_logging`.

Python dictionaries are modelled as association lists (`List (String × _)`)
preserving insertion order, with distinct keys; `None` is `Option.none`;
Python truthiness of the global (`if PROCESS_LOGGING_CONFIG:`) is modelled
explicitly: `none` and `some []` are falsy, everything else truthy.
-/

/-- Scalar values a parsed configuration leaf can hold. -/
inductive Prim where
  | str : String → Prim
  | int : Int → Prim
  | bool : Bool → Prim
  | null : Prim
deriving DecidableEq

/-- A leaf of the structured configuration: either a scalar, or an opaque
collection (a Python list/tuple, which the flattener does not recurse into). -/
inductive Leaf where
  | prim : Prim → Leaf
  | arr : List Prim → Leaf
deriving DecidableEq

/-- A structured-configuration value: a leaf, or a nested mapping from string
keys to values.  Mappings keep insertion order, like Python dictionaries. -/
inductive CVal where
  | leaf : Leaf → CVal
  | node : List (String × CVal) → CVal

/-- A structured configuration: the top-level mapping. -/
abbrev Config : Type := List (String × CVal)

mutual

/-- Boolean structural equality on configuration values (Python `==`/`!=`). -/
def CVal.beq : CVal → CVal → Bool
  | .leaf a, .leaf b => decide (a = b)
  | .node a, .node b => beqMap a b
  | _, _ => false

/-- Boolean structural equality on nested mappings. -/
def beqMap : List (String × CVal) → List (String × CVal) → Bool
  | [], [] => true
  | (k1, v1) :: r1, (k2, v2) :: r2 => decide (k1 = k2) && CVal.beq v1 v2 && beqMap r1 r2
  | _, _ => false

end

mutual

theorem CVal.beq_iff : ∀ a b : CVal, CVal.beq a b = true ↔ a = b
  | .leaf _, .leaf _ => by simp [CVal.beq]
  | .node a, .node b => by simp [CVal.beq, beqMap_iff a b]
  | .leaf _, .node _ => by simp [CVal.beq]
  | .node _, .leaf _ => by simp [CVal.beq]

theorem beqMap_iff : ∀ a b : List (String × CVal), beqMap a b = true ↔ a = b
  | [], [] => by simp [beqMap]
  | (k1, v1) :: r1, (k2, v2) :: r2 => by
    simp [beqMap, CVal.beq_iff v1 v2, beqMap_iff r1 r2, and_assoc]
  | [], (_, _) :: _ => by simp [beqMap]
  | (_, _) :: _, [] => by simp [beqMap]

end

instance : DecidableEq CVal := fun a b => decidable_of_iff (CVal.beq a b = true) (CVal.beq_iff a b)

/-- Python dictionary lookup `m[k]` / `m.get(k)` on an insertion-ordered
association list: the binding of `k`, if any. -/
def alist_get : List (String × CVal) → String → Option CVal
  | [], _ => none
  | (k2, v2) :: rest, k => if k2 = k then some v2 else alist_get rest k

/-- Python dictionary assignment `m[k] = v`: replaces an existing binding in
place, otherwise appends a new one. -/
def alist_set : List (String × CVal) → String → CVal → List (String × CVal)
  | [], k, v => [(k, v)]
  | (k2, v2) :: rest, k, v => if k2 = k then (k, v) :: rest else (k2, v2) :: alist_set rest k v

mutual

/-- Modelled from the spec: the flattener of `prefect.utilities.collections`
(imported by the source, not itself under `src/`) on a single value.  A leaf
becomes a single entry with an empty relative key-path; a nested mapping is
recursed into, with the mapping key prepended to every inner key-path.
Lists/tuples are `Leaf.arr` and are therefore opaque, not recursed into. -/
def flattenVal : CVal → List (List String × Leaf)
  | .leaf v => [([], v)]
  | .node m => flattenMap m

/-- Modelled from the spec: the flattener on a mapping, enumerating entries in
insertion order. -/
def flattenMap : List (String × CVal) → List (List String × Leaf)
  | [] => []
  | (k, v) :: rest => (flattenVal v).map (fun e => (k :: e.1, e.2)) ++ flattenMap rest

end

/-- Modelled from the spec: `dict_to_flatdict` of
`prefect.utilities.collections` — converts a structured configuration into the
mapping from key-paths (`key_tup` in the source) to leaf values. -/
def dict_to_flatdict (config : Config) : List (List String × Leaf) :=
  flattenMap config

/-- One insertion step of the unflattener: write leaf `v` at key-path `path`,
materialising intermediate nested mappings as needed. -/
def insertPath : List (String × CVal) → List String → Leaf → List (String × CVal)
  | m, [], _ => m
  | m, [k], v => alist_set m k (.leaf v)
  | m, k :: k2 :: ks, v =>
    let sub := match alist_get m k with
      | some (.node s) => s
      | _ => []
    alist_set m k (.node (insertPath sub (k2 :: ks) v))

/-- The fold step used by the unflattener. -/
def insStep (m : Config) (e : List String × Leaf) : Config :=
  insertPath m e.1 e.2

/-- Modelled from the spec: `flatdict_to_dict` of
`prefect.utilities.collections` — re-nests a flattened configuration by
inserting every key-path in order into an initially empty mapping. -/
def flatdict_to_dict (fl : List (List String × Leaf)) : Config :=
  fl.foldl insStep []

mutual

/-- A value is well-formed when every nested mapping in it has pairwise
distinct keys and is non-empty (Python dictionaries always have distinct keys;
emptiness of nested mappings is the acknowledged lossy case of flattening). -/
def wfVal : CVal → Bool
  | .leaf _ => true
  | .node m => !m.isEmpty && wfMap m

/-- Well-formedness of a mapping: distinct keys, well-formed values. -/
def wfMap : List (String × CVal) → Bool
  | [] => true
  | (k, v) :: rest => (alist_get rest k).isNone && wfVal v && wfMap rest

end

/-- ASCII alphanumeric test, the character class `[0-9a-zA-Z]` of the regex in
the source (`re.compile(r"[^0-9a-zA-Z]+")`), phrased on code points. -/
def isAlnumAscii (c : Char) : Bool :=
  (48 ≤ c.toNat && c.toNat ≤ 57) || (97 ≤ c.toNat && c.toNat ≤ 122) ||
    (65 ≤ c.toNat && c.toNat ≤ 90)

/-- Replace every maximal run of non-alphanumeric characters by a single
underscore; `inRun` records whether the previous character was part of such a
run whose underscore has already been emitted. -/
def squashRuns : List Char → Bool → List Char
  | [], _ => []
  | c :: cs, inRun =>
    if isAlnumAscii c then c :: squashRuns cs false
    else if inRun then squashRuns cs true
    else '_' :: squashRuns cs true

/-- `to_envvar` of the source: `re.sub(re.compile(r"[^0-9a-zA-Z]+"), "_", s)`. -/
def to_envvar (s : String) : String :=
  ⟨squashRuns s.data false⟩

/-- Python `str.upper()` on a single character of the `to_envvar` output
(which is ASCII): lower-case ASCII letters are shifted to upper case, all
other characters are unchanged. -/
def asciiUpperChar (c : Char) : Char :=
  if 97 ≤ c.toNat && c.toNat ≤ 122 then Char.ofNat (c.toNat - 32) else c

/-- Python `str.upper()` on the (ASCII) output of `to_envvar`. -/
def asciiUpper (s : String) : String :=
  ⟨s.data.map asciiUpperChar⟩

/-- The character class the spec allows in a derived environment-variable
name: uppercase ASCII alphanumerics and the underscore separator. -/
def isUpperAlnumOrSep (c : Char) : Bool :=
  (48 ≤ c.toNat && c.toNat ≤ 57) || (65 ≤ c.toNat && c.toNat ≤ 90) || c.toNat = 95

/-- The environment-variable name derivation of the source, with the namespace
token abstracted: `to_envvar(pfx + "_" + "_".join(key_tup)).upper()`.  The
source instantiates `pfx` with `"PREFECT_LOGGING"` (it writes the trailing
separator into the literal: `"PREFECT_LOGGING_" + "_".join(key_tup)`). -/
def derive_env_name (pfx : String) (key_tup : List String) : String :=
  asciiUpper (to_envvar (pfx ++ "_" ++ String.intercalate "_" key_tup))

/-- The concrete environment-variable name used by `load_logging_config`. -/
def env_name (key_tup : List String) : String :=
  derive_env_name "PREFECT_LOGGING" key_tup

/-- The per-leaf environment override of `load_logging_config`:
`env_val = os.environ.get(...); if env_val: val = env_val`.  A present,
non-empty environment value replaces the leaf by that string; an absent or
empty value (both falsy in Python) leaves the leaf unchanged. -/
def override_leaf (env : String → Option String) (p : List String) (x : Leaf) : Leaf :=
  match env (env_name p) with
  | some s => if s = "" then x else .prim (.str s)
  | none => x

/-- The environment-override section of `load_logging_config`: flatten the
parsed configuration, override each leaf from the environment, and re-nest
(the source mutates `flat_config[key_tup]` in place, which on an
insertion-ordered mapping is exactly an entry-wise map). -/
def apply_overrides (config : Config) (env : String → Option String) : Config :=
  flatdict_to_dict ((dict_to_flatdict config).map (fun e => (e.1, override_leaf env e.1 e.2)))

/-- A part of the raw template text: literal text, or a `${name}` placeholder. -/
inductive TmplPart where
  | lit : String → TmplPart
  | var : String → TmplPart
deriving DecidableEq

/-- Lookup in the substitution-variable mapping built from the settings
registry (`setting.name` ↦ `str(setting.value_from(settings))`). -/
def lookupStr : List (String × String) → String → Option String
  | [], _ => none
  | (k2, v) :: rest, k => if k2 = k then some v else lookupStr rest k

/-- Modelled from the spec: `string.Template(...).substitute(vars)` (the
Python standard library used by `load_logging_config`, not repository code):
strict substitution that fails on the first placeholder whose name is not a
registered variable, returning that name as the error. -/
def substituteParts (vars : List (String × String)) : List TmplPart → Except String String
  | [] => .ok ""
  | .lit s :: rest =>
    match substituteParts vars rest with
    | .error n => .error n
    | .ok t => .ok (s ++ t)
  | .var n :: rest =>
    match lookupStr vars n with
    | none => .error n
    | some v =>
      match substituteParts vars rest with
      | .error n2 => .error n2
      | .ok t => .ok (v ++ t)

/-- The failure modes of configuration resolution: a placeholder referencing
an unregistered name (`TemplateError`), or malformed structured-document
syntax (`ParseError`). -/
inductive ResolveError where
  | templateError : String → ResolveError
  | parseError : String → ResolveError
deriving DecidableEq

/-- Split a character list on a separator character. -/
def splitOnChar (sep : Char) : List Char → List (List Char)
  | [] => [[]]
  | c :: cs =>
    let r := splitOnChar sep cs
    if c = sep then [] :: r
    else
      match r with
      | [] => [[c]]
      | h :: t => (c :: h) :: t

/-- Split a line at the first `": "` into key and value characters. -/
def breakColonSpace : List Char → Option (List Char × List Char)
  | [] => none
  | ':' :: ' ' :: rest => some ([], rest)
  | c :: rest =>
    match breakColonSpace rest with
    | none => none
    | some (a, b) => some (c :: a, b)

/-- Modelled from the spec: one line of the external structured-document
parser (`yaml.safe_load`, not repository code), on the flat `key: value`
fragment the examples use; anything else is a parse error carrying the line. -/
def parseLine (l : List Char) : Except String (String × CVal) :=
  match breakColonSpace l with
  | some (k, v) => .ok (⟨k⟩, .leaf (.prim (.str ⟨v⟩)))
  | none => .error ⟨l⟩

/-- Modelled from the spec: parse each non-empty line of the substituted text. -/
def parseLines : List (List Char) → Except String Config
  | [] => .ok []
  | l :: rest =>
    match parseLine l with
    | .error e => .error e
    | .ok kv =>
      match parseLines rest with
      | .error e => .error e
      | .ok m => .ok (kv :: m)

/-- Modelled from the spec: the external structured-document parser applied to
the substituted template text. -/
def parseSimpleDoc (s : String) : Except String Config :=
  parseLines ((splitOnChar '\n' s.data).filter (fun l => !l.isEmpty))

/-- The resolution stage of `load_logging_config`: substitute the registry
variables into the template text, then parse the result. -/
def resolve_template (tmpl : List TmplPart) (registry : List (String × String)) :
    Except ResolveError Config :=
  match substituteParts registry tmpl with
  | .error n => .error (.templateError n)
  | .ok text =>
    match parseSimpleDoc text with
    | .error e => .error (.parseError e)
    | .ok config => .ok config

/-- `load_logging_config` of the source: resolve the template, then apply the
environment overrides. -/
def load_logging_config (tmpl : List TmplPart) (registry : List (String × String))
    (env : String → Option String) : Except ResolveError Config :=
  match resolve_template tmpl registry with
  | .error e => .error e
  | .ok config => .ok (apply_overrides config env)

/-- The observable outcome of one `setup_logging` call: the value of the
module global `PROCESS_LOGGING_CONFIG` after the call, whether
`logging.config.dictConfig` (the side-effect applier) was invoked, the payload
of the drift warning if one was emitted, the key of an uncaught `KeyError` if
one was raised, and the resolution error if `load_logging_config` raised. -/
structure SetupResult where
  state : Option Config
  applied : Bool
  warning : Option Config
  keyError : Option String
  resolveError : Option ResolveError
deriving DecidableEq

/-- The dictionary comprehension of `setup_logging`:
`{key: value for key, value in config.items() if PROCESS_LOGGING_CONFIG[key] != value}`.
Iterates the new configuration's items in order; raises `KeyError` (returned
as `.error key`) when a key is absent from the stored configuration. -/
def config_diff : Config → Config → Except String Config
  | [], _ => .ok []
  | (k, v) :: rest, stored =>
    match alist_get stored k with
    | none => .error k
    | some sv =>
      match config_diff rest stored with
      | .error k2 => .error k2
      | .ok d => .ok (if sv ≠ v then (k, v) :: d else d)

/-- The gate portion of `setup_logging` (everything after
`load_logging_config` returns): `if PROCESS_LOGGING_CONFIG:` — note Python
truthiness, under which both `None` and the empty dictionary are falsy — then
either compare-and-warn-and-return, or apply the configuration via
`logging.config.dictConfig` and store it in the module global. -/
def setup_logging_gate (state : Option Config) (config : Config) : SetupResult :=
  match state with
  | some stored =>
    if stored.isEmpty then
      { state := some config, applied := true, warning := none,
        keyError := none, resolveError := none }
    else
      match config_diff config stored with
      | .error k =>
        { state := some stored, applied := false, warning := none,
          keyError := some k, resolveError := none }
      | .ok d =>
        { state := some stored, applied := false,
          warning := if d.isEmpty then none else some d,
          keyError := none, resolveError := none }
  | none =>
    { state := some config, applied := true, warning := none,
      keyError := none, resolveError := none }

/-- `setup_logging` of the source: resolve the configuration (a resolution
error propagates before the gate is consulted, leaving the module global
untouched), then run the gate. -/
def setup_logging (state : Option Config) (tmpl : List TmplPart)
    (registry : List (String × String)) (env : String → Option String) : SetupResult :=
  match load_logging_config tmpl registry env with
  | .error e =>
    { state := state, applied := false, warning := none,
      keyError := none, resolveError := some e }
  | .ok config => setup_logging_gate state config

/-- A sequence of `setup_logging` calls against the gate, threading the module
global and counting how many calls invoked the side-effect applier. -/
def run_calls : Option Config → List Config → Option Config × Nat
  | state, [] => (state, 0)
  | state, c :: cs =>
    let r := setup_logging_gate state c
    let p := run_calls r.state cs
    (p.1, (if r.applied then 1 else 0) + p.2)

/-- The observable fields of a Python `logging.Logger` touched by the
extra-logger copying loop: its level (`logging.NOTSET` is `0`), its
`propagate` flag, and its handler list (handlers identified by id). -/
structure LoggerState where
  level : Nat
  propagate : Bool
  handlers : List Nat
deriving DecidableEq

/-- `logging.NOTSET`. -/
def NOTSET : Nat := 0

/-- The body of the inner loop of `setup_logging`'s extra-logger step, for a
single handler of the `prefect.extra` logger: `logger.addHandler(handler)`;
`if logger.level == logging.NOTSET: logger.setLevel(extra_config.level)`;
`logger.propagate = extra_config.propagate`. -/
def add_extra_handler (extra : LoggerState) (lg : LoggerState) (h : Nat) : LoggerState :=
  let lg1 : LoggerState := { lg with handlers := lg.handlers ++ [h] }
  let lg2 : LoggerState :=
    if lg1.level = NOTSET then { lg1 with level := extra.level } else lg1
  { lg2 with propagate := extra.propagate }

/-- The extra-logger copying step of `setup_logging` for one extra logger
name: iterate the handlers of the `prefect.extra` logger (`extra`), mutating
the target logger (`lg`). -/
def copy_extra_config (extra : LoggerState) (lg : LoggerState) : LoggerState :=
  extra.handlers.foldl (add_extra_handler extra) lg

mutual

/-- Apply a key-path-indexed transformation to every leaf of a value, `p`
being the path from the configuration root to the value. -/
def mapLeavesVal (g : List String → Leaf → Leaf) : CVal → CVal
  | .leaf x => .leaf (g [] x)
  | .node m => .node (mapLeavesMap g m)

/-- Apply a key-path-indexed transformation to every leaf of a mapping. -/
def mapLeavesMap (g : List String → Leaf → Leaf) : List (String × CVal) → List (String × CVal)
  | [] => []
  | (k, v) :: rest =>
    (k, mapLeavesVal (fun p x => g (k :: p) x) v) :: mapLeavesMap g rest

end

/-- Distinctness of the top-level keys of a mapping (an invariant of every
Python dictionary). -/
def distinctKeys : List (String × CVal) → Bool
  | [] => true
  | (k, _) :: rest => (alist_get rest k).isNone && distinctKeys rest

instance {e a : Type} [DecidableEq e] [DecidableEq a] : DecidableEq (Except e a) := fun x y =>
  match x, y with
  | .ok u, .ok w =>
    if h : u = w then isTrue (by rw [h]) else isFalse (by simp [h])
  | .error u, .error w =>
    if h : u = w then isTrue (by rw [h]) else isFalse (by simp [h])
  | .ok _, .error _ => isFalse (by simp)
  | .error _, .ok _ => isFalse (by simp)

theorem alist_get_none_ne {m : List (String × CVal)} {k : String}
    (h : alist_get m k = none) : ∀ e ∈ m, e.1 ≠ k := by
  induction m with
  | nil => intro e he; simp at he
  | cons hd tl ih =>
    obtain ⟨ka, va⟩ := hd
    intro e he
    rw [alist_get] at h
    by_cases hk : ka = k
    · rw [if_pos hk] at h; exact absurd h (by simp)
    · rw [if_neg hk] at h
      rcases List.mem_cons.mp he with rfl | htl
      · exact hk
      · exact ih h e htl

theorem alist_set_of_get_none {m : List (String × CVal)} {k : String} {v : CVal}
    (h : alist_get m k = none) : alist_set m k v = m ++ [(k, v)] := by
  induction m with
  | nil => rfl
  | cons hd tl ih =>
    obtain ⟨ka, va⟩ := hd
    rw [alist_get] at h
    rw [alist_set]
    by_cases hk : ka = k
    · rw [if_pos hk] at h; exact absurd h (by simp)
    · rw [if_neg hk] at h
      rw [if_neg hk, ih h, List.cons_append]

theorem alist_get_append_self {m : List (String × CVal)} {k : String} {v : CVal}
    (h : alist_get m k = none) : alist_get (m ++ [(k, v)]) k = some v := by
  induction m with
  | nil => simp [alist_get]
  | cons hd tl ih =>
    obtain ⟨ka, va⟩ := hd
    rw [alist_get] at h
    rw [List.cons_append, alist_get]
    by_cases hk : ka = k
    · rw [if_pos hk] at h; exact absurd h (by simp)
    · rw [if_neg hk] at h
      rw [if_neg hk]
      exact ih h

theorem alist_get_append_ne {m : List (String × CVal)} {k k2 : String} {v : CVal}
    (h : k2 ≠ k) : alist_get (m ++ [(k, v)]) k2 = alist_get m k2 := by
  induction m with
  | nil =>
    rw [List.nil_append, alist_get, alist_get, if_neg (fun hh => h hh.symm)]
    rfl
  | cons hd tl ih =>
    obtain ⟨ka, va⟩ := hd
    rw [List.cons_append, alist_get, alist_get]
    by_cases hk : ka = k2
    · rw [if_pos hk, if_pos hk]
    · rw [if_neg hk, if_neg hk, ih]

theorem alist_set_append {m : List (String × CVal)} {k : String} {v w : CVal}
    (h : alist_get m k = none) : alist_set (m ++ [(k, v)]) k w = m ++ [(k, w)] := by
  induction m with
  | nil => simp [alist_set]
  | cons hd tl ih =>
    obtain ⟨ka, va⟩ := hd
    rw [alist_get] at h
    rw [List.cons_append, alist_set]
    by_cases hk : ka = k
    · rw [if_pos hk] at h; exact absurd h (by simp)
    · rw [if_neg hk] at h
      rw [if_neg hk, ih h, List.cons_append]

theorem alist_get_set_self {m : List (String × CVal)} {k : String} {v : CVal} :
    alist_get (alist_set m k v) k = some v := by
  induction m with
  | nil => simp [alist_set, alist_get]
  | cons hd tl ih =>
    obtain ⟨ka, va⟩ := hd
    rw [alist_set]
    by_cases hk : ka = k
    · rw [if_pos hk, alist_get, if_pos rfl]
    · rw [if_neg hk, alist_get, if_neg hk]
      exact ih

theorem alist_set_set {m : List (String × CVal)} {k : String} {v w : CVal} :
    alist_set (alist_set m k v) k w = alist_set m k w := by
  induction m with
  | nil => simp [alist_set]
  | cons hd tl ih =>
    obtain ⟨ka, va⟩ := hd
    rw [alist_set]
    by_cases hk : ka = k
    · rw [if_pos hk, alist_set, if_pos rfl, alist_set, if_pos hk]
    · rw [if_neg hk, alist_set, if_neg hk, alist_set, if_neg hk, ih]

theorem alist_set_of_get_some {m : List (String × CVal)} {k : String} {v : CVal}
    (h : alist_get m k = some v) : alist_set m k v = m := by
  induction m with
  | nil => exact absurd h (by simp [alist_get])
  | cons hd tl ih =>
    obtain ⟨ka, va⟩ := hd
    rw [alist_get] at h
    rw [alist_set]
    by_cases hk : ka = k
    · rw [if_pos hk] at h
      rw [if_pos hk, hk, (Option.some_inj.mp h)]
    · rw [if_neg hk] at h
      rw [if_neg hk, ih h]

theorem flattenMap_paths_ne_nil (m : List (String × CVal)) :
    ∀ e ∈ flattenMap m, e.1 ≠ [] := by
  induction m with
  | nil => intro e he; rw [flattenMap] at he; simp at he
  | cons hd tl ih =>
    obtain ⟨k, v⟩ := hd
    intro e he
    rw [flattenMap] at he
    rcases List.mem_append.mp he with h1 | h2
    · obtain ⟨e0, _, rfl⟩ := List.mem_map.mp h1
      simp
    · exact ih e h2

mutual

theorem flattenVal_ne_nil : ∀ v : CVal, wfVal v = true → flattenVal v ≠ []
  | .leaf x, _ => by rw [flattenVal]; simp
  | .node m, h => by
    rw [wfVal, Bool.and_eq_true] at h
    rw [flattenVal]
    exact flattenMap_ne_nil m h.2 (by
      intro hm
      rw [hm] at h
      simp at h)

theorem flattenMap_ne_nil : ∀ m : List (String × CVal),
    wfMap m = true → m ≠ [] → flattenMap m ≠ []
  | [], _, hm => absurd rfl hm
  | (k, v) :: rest, h, _ => by
    rw [wfMap, Bool.and_eq_true, Bool.and_eq_true] at h
    rw [flattenMap]
    intro hcontra
    rcases List.append_eq_nil.mp hcontra with ⟨h1, _⟩
    exact flattenVal_ne_nil v h.1.2 (List.map_eq_nil_iff.mp h1)

end

theorem foldl_insStep_update : ∀ (l : List (List String × Leaf)) (k : String)
    (t m : List (String × CVal)),
    (∀ e ∈ l, e.1 ≠ []) → alist_get m k = some (.node t) →
    List.foldl insStep m (l.map (fun e => (k :: e.1, e.2))) =
      alist_set m k (.node (List.foldl insStep t l))
  | [], _, _, _, _, hget => by
    rw [List.map_nil, List.foldl_nil, List.foldl_nil]
    exact (alist_set_of_get_some hget).symm
  | (p, x) :: l2, k, t, m, hne, hget => by
    cases p with
    | nil => exact absurd rfl (hne ([], x) (by simp))
    | cons p1 ps =>
      rw [List.map_cons, List.foldl_cons, List.foldl_cons]
      have hstep : insStep m ((fun e => (k :: e.1, e.2)) (p1 :: ps, x)) =
          alist_set m k (.node (insertPath t (p1 :: ps) x)) := by
        rw [insStep, insertPath]
        simp only [hget]
      rw [hstep]
      rw [foldl_insStep_update l2 k (insertPath t (p1 :: ps) x) _
        (fun e he => hne e (List.mem_cons_of_mem _ he)) alist_get_set_self]
      rw [alist_set_set]
      rfl

theorem foldl_insStep_fresh (l : List (List String × Leaf)) (k : String)
    (m : List (String × CVal)) (hne : ∀ e ∈ l, e.1 ≠ []) (hl : l ≠ [])
    (hget : alist_get m k = none) :
    List.foldl insStep m (l.map (fun e => (k :: e.1, e.2))) =
      m ++ [(k, .node (List.foldl insStep [] l))] := by
  match l, hl with
  | (p, x) :: l2, _ =>
    cases p with
    | nil => exact absurd rfl (hne ([], x) (by simp))
    | cons p1 ps =>
      rw [List.map_cons, List.foldl_cons, List.foldl_cons]
      have hstep : insStep m ((fun e => (k :: e.1, e.2)) (p1 :: ps, x)) =
          alist_set m k (.node (insertPath [] (p1 :: ps) x)) := by
        rw [insStep, insertPath]
        simp only [hget]
      rw [hstep, alist_set_of_get_none hget]
      rw [foldl_insStep_update l2 k (insertPath [] (p1 :: ps) x) _
        (fun e he => hne e (List.mem_cons_of_mem _ he)) (alist_get_append_self hget)]
      rw [alist_set_append hget]
      rfl

theorem foldl_insStep_flattenMap : ∀ (m acc : List (String × CVal)),
    wfMap m = true → (∀ e ∈ m, alist_get acc e.1 = none) →
    List.foldl insStep acc (flattenMap m) = acc ++ m
  | [], acc, _, _ => by rw [flattenMap, List.foldl_nil, List.append_nil]
  | (k, v) :: rest, acc, hwf, habs => by
    rw [wfMap, Bool.and_eq_true, Bool.and_eq_true] at hwf
    obtain ⟨⟨hdk, hwv⟩, hwrest⟩ := hwf
    have hacck : alist_get acc k = none := habs (k, v) (List.mem_cons_self _ _)
    rw [flattenMap, List.foldl_append]
    have hfirst : List.foldl insStep acc ((flattenVal v).map (fun e => (k :: e.1, e.2))) =
        acc ++ [(k, v)] := by
      cases v with
      | leaf x =>
        rw [flattenVal, List.map_cons, List.map_nil, List.foldl_cons, List.foldl_nil]
        have : insStep acc ((fun e => (k :: e.1, e.2)) (([] : List String), x)) =
            alist_set acc k (.leaf x) := rfl
        rw [this, alist_set_of_get_none hacck]
      | node s =>
        rw [wfVal, Bool.and_eq_true] at hwv
        have hs_ne : s ≠ [] := by
          intro hs
          rw [hs] at hwv
          simp at hwv
        rw [flattenVal]
        rw [foldl_insStep_fresh (flattenMap s) k acc (flattenMap_paths_ne_nil s)
          (flattenMap_ne_nil s hwv.2 hs_ne) hacck]
        rw [foldl_insStep_flattenMap s [] hwv.2 (fun e _ => rfl)]
        rw [List.nil_append]
    rw [hfirst]
    rw [foldl_insStep_flattenMap rest (acc ++ [(k, v)]) hwrest (by
      intro e he
      have hek : e.1 ≠ k :=
        alist_get_none_ne (Option.isNone_iff_eq_none.mp hdk) e he
      rw [alist_get_append_ne hek]
      exact habs e (List.mem_cons_of_mem _ he))]
    simp

/-- For a well-formed configuration (distinct keys at every level, no empty
nested mapping), unflattening the flattened view reproduces the configuration. -/
theorem flatdict_roundtrip (m : Config) (h : wfMap m = true) :
    flatdict_to_dict (dict_to_flatdict m) = m := by
  have hmain := foldl_insStep_flattenMap m [] h (fun e _ => rfl)
  rw [flatdict_to_dict, dict_to_flatdict, hmain, List.nil_append]

/-- C4 (counterexample): the claimed round trip `unflatten(flatten(C)) == C`
fails for the structured configuration whose single entry holds an empty
nested mapping — the flattener drops the entry entirely, so the round trip
returns the empty configuration. -/
theorem flatdict_roundtrip_cx :
    flatdict_to_dict (dict_to_flatdict [("a", CVal.node [])]) = [] ∧
    ([] : Config) ≠ [("a", CVal.node [])] := by decide

/-- C4 (amended): for every structured configuration containing only nested
mappings, scalar leaves and opaque leaf collections, in which every nested
mapping is non-empty (and keys are distinct, as in any Python dictionary),
`unflatten(flatten(C)) == C`; in particular the empty input maps to the empty
output.  Both functions are pure Lean functions. -/
theorem unflatten_flatten_id (c : Config) (h : wfMap c = true) :
    flatdict_to_dict (dict_to_flatdict c) = c ∧
    flatdict_to_dict (dict_to_flatdict ([] : Config)) = [] :=
  ⟨flatdict_roundtrip c h, rfl⟩

/-- C4 (witness). -/
theorem unflatten_flatten_id_w :
    wfMap [("handlers",
             CVal.node [("console", CVal.node [("level", CVal.leaf (.prim (.str "INFO")))])]),
           ("version", CVal.leaf (.prim (.int 1))),
           ("loggers", CVal.leaf (.arr [.str "a", .str "b"]))] = true ∧
    flatdict_to_dict (dict_to_flatdict
          [("handlers",
             CVal.node [("console", CVal.node [("level", CVal.leaf (.prim (.str "INFO")))])]),
           ("version", CVal.leaf (.prim (.int 1))),
           ("loggers", CVal.leaf (.arr [.str "a", .str "b"]))]) =
        [("handlers",
           CVal.node [("console", CVal.node [("level", CVal.leaf (.prim (.str "INFO")))])]),
         ("version", CVal.leaf (.prim (.int 1))),
         ("loggers", CVal.leaf (.arr [.str "a", .str "b"]))] ∧
    flatdict_to_dict (dict_to_flatdict ([] : Config)) = [] :=
  ⟨by decide, (unflatten_flatten_id _ (by decide)).1, (unflatten_flatten_id [] (by decide)).2⟩


mutual

theorem flattenVal_mapLeaves (g : List String → Leaf → Leaf) :
    ∀ v : CVal, flattenVal (mapLeavesVal g v) = (flattenVal v).map (fun e => (e.1, g e.1 e.2))
  | .leaf x => by rw [mapLeavesVal, flattenVal, flattenVal, List.map_cons, List.map_nil]
  | .node m => by
    rw [mapLeavesVal, flattenVal, flattenVal]
    exact flattenMap_mapLeaves g m

theorem flattenMap_mapLeaves (g : List String → Leaf → Leaf) :
    ∀ m : List (String × CVal),
      flattenMap (mapLeavesMap g m) = (flattenMap m).map (fun e => (e.1, g e.1 e.2))
  | [] => by rw [mapLeavesMap, flattenMap, List.map_nil]
  | (k, v) :: rest => by
    rw [mapLeavesMap, flattenMap, flattenMap, List.map_append]
    rw [flattenVal_mapLeaves (fun p x => g (k :: p) x) v]
    rw [flattenMap_mapLeaves g rest]
    rw [List.map_map, List.map_map]
    rfl

end

theorem alist_get_mapLeaves (g : List String → Leaf → Leaf)
    (m : List (String × CVal)) (k : String) :
    alist_get (mapLeavesMap g m) k =
      (alist_get m k).map (mapLeavesVal (fun p x => g (k :: p) x)) := by
  induction m with
  | nil => rfl
  | cons hd tl ih =>
    obtain ⟨ka, va⟩ := hd
    rw [mapLeavesMap, alist_get, alist_get]
    by_cases hk : ka = k
    · rw [if_pos hk, if_pos hk, hk]; rfl
    · rw [if_neg hk, if_neg hk, ih]

mutual

theorem wfVal_mapLeaves (g : List String → Leaf → Leaf) :
    ∀ v : CVal, wfVal v = true → wfVal (mapLeavesVal g v) = true
  | .leaf _, _ => rfl
  | .node m, h => by
    rw [wfVal, Bool.and_eq_true] at h
    rw [mapLeavesVal, wfVal, Bool.and_eq_true]
    refine ⟨?_, wfMap_mapLeaves g m h.2⟩
    cases m with
    | nil => simp at h
    | cons hd tl => rw [mapLeavesMap.eq_def]; obtain ⟨k, v⟩ := hd; rfl

theorem wfMap_mapLeaves (g : List String → Leaf → Leaf) :
    ∀ m : List (String × CVal), wfMap m = true → wfMap (mapLeavesMap g m) = true
  | [], _ => rfl
  | (k, v) :: rest, h => by
    rw [wfMap, Bool.and_eq_true, Bool.and_eq_true] at h
    rw [mapLeavesMap, wfMap, Bool.and_eq_true, Bool.and_eq_true]
    refine ⟨⟨?_, wfVal_mapLeaves _ v h.1.2⟩, wfMap_mapLeaves g rest h.2⟩
    rw [alist_get_mapLeaves]
    rw [Option.isNone_iff_eq_none.mp h.1.1]
    rfl

end

/-- C7 (counterexample): a configuration entry holding an empty nested mapping
is dropped by `apply_overrides` even when no environment variable is set, so
"all non-overridden structure and values are preserved" fails as stated. -/
theorem apply_overrides_cx :
    apply_overrides [("a", CVal.node [])] (fun _ => none) = [] ∧
    ([] : Config) ≠ [("a", CVal.node [])] := by decide

/-- C7 (amended): for every structured configuration whose nested mappings are
all non-empty (and whose keys are distinct), `apply_overrides` equals the
structure-preserving map that rewrites each leaf according to its key-path's
derived environment variable: a present non-empty value replaces the leaf with
that string (type-widening: the result is a string whatever the original
scalar was), an absent or empty value leaves the leaf unchanged; hence the
flattened view of the result has exactly the original key-paths with the
overridden values. -/
theorem apply_overrides_spec (c : Config) (env : String → Option String)
    (h : wfMap c = true) :
    apply_overrides c env = mapLeavesMap (override_leaf env) c ∧
    dict_to_flatdict (apply_overrides c env) =
      (dict_to_flatdict c).map (fun e => (e.1, override_leaf env e.1 e.2)) ∧
    (∀ p x s, env (env_name p) = some s → s ≠ "" →
      override_leaf env p x = .prim (.str s)) ∧
    (∀ p x, env (env_name p) = none → override_leaf env p x = x) ∧
    (∀ p x, env (env_name p) = some "" → override_leaf env p x = x) := by
  have hcomm := flattenMap_mapLeaves (override_leaf env) c
  have hwf2 := wfMap_mapLeaves (override_leaf env) c h
  have hfirst : apply_overrides c env = mapLeavesMap (override_leaf env) c := by
    rw [apply_overrides]
    rw [show (dict_to_flatdict c).map (fun e => (e.1, override_leaf env e.1 e.2)) =
        dict_to_flatdict (mapLeavesMap (override_leaf env) c) from hcomm.symm]
    exact flatdict_roundtrip _ hwf2
  refine ⟨hfirst, ?_, ?_, ?_, ?_⟩
  · rw [hfirst]
    exact hcomm
  · intro p x s hs hne
    rw [override_leaf, hs]
    exact if_neg hne
  · intro p x hs
    rw [override_leaf, hs]
  · intro p x hs
    rw [override_leaf, hs]
    exact if_pos rfl

/-- C7 (witness): `{handlers: {console: {level: "INFO"}}}` with
`PREFECT_LOGGING_HANDLERS_CONSOLE_LEVEL=DEBUG` set becomes
`{handlers: {console: {level: "DEBUG"}}}`. -/
theorem apply_overrides_spec_w :
    wfMap [("handlers",
       CVal.node [("console", CVal.node [("level", CVal.leaf (.prim (.str "INFO")))])])] = true ∧
    apply_overrides
        [("handlers",
           CVal.node [("console", CVal.node [("level", CVal.leaf (.prim (.str "INFO")))])])]
        (fun n => if n = "PREFECT_LOGGING_HANDLERS_CONSOLE_LEVEL" then some "DEBUG" else none) =
      mapLeavesMap
        (override_leaf
          (fun n => if n = "PREFECT_LOGGING_HANDLERS_CONSOLE_LEVEL" then some "DEBUG" else none))
        [("handlers",
           CVal.node [("console", CVal.node [("level", CVal.leaf (.prim (.str "INFO")))])])] ∧
    mapLeavesMap
        (override_leaf
          (fun n => if n = "PREFECT_LOGGING_HANDLERS_CONSOLE_LEVEL" then some "DEBUG" else none))
        [("handlers",
           CVal.node [("console", CVal.node [("level", CVal.leaf (.prim (.str "INFO")))])])] =
      [("handlers",
         CVal.node [("console", CVal.node [("level", CVal.leaf (.prim (.str "DEBUG")))])])] :=
  ⟨by decide,
   (apply_overrides_spec _ _ (by decide)).1,
   by decide⟩


theorem distinctKeys_get_self : ∀ m : List (String × CVal), distinctKeys m = true →
    ∀ e ∈ m, alist_get m e.1 = some e.2
  | [], _, e, he => absurd he (by simp)
  | (k, v) :: rest, h, e, he => by
    rw [distinctKeys, Bool.and_eq_true] at h
    rcases List.mem_cons.mp he with rfl | htl
    · rw [alist_get, if_pos rfl]
    · have hek : e.1 ≠ k :=
        alist_get_none_ne (Option.isNone_iff_eq_none.mp h.1) e htl
      rw [alist_get, if_neg (fun hh => hek hh.symm)]
      exact distinctKeys_get_self rest h.2 e htl

theorem setup_logging_gate_truthy (stored c : Config) (h : stored ≠ []) :
    (setup_logging_gate (some stored) c).applied = false ∧
    (setup_logging_gate (some stored) c).state = some stored := by
  have hie : stored.isEmpty = false := by
    cases stored with
    | nil => exact absurd rfl h
    | cons hd tl => rfl
  rw [setup_logging_gate, if_neg (by rw [hie]; exact Bool.false_ne_true)]
  cases hd : config_diff c stored with
  | error k => exact ⟨rfl, rfl⟩
  | ok d => exact ⟨rfl, rfl⟩

theorem run_calls_truthy (cs : List Config) : ∀ stored : Config, stored ≠ [] →
    run_calls (some stored) cs = (some stored, 0) := by
  induction cs with
  | nil => intro stored h; rfl
  | cons c cs2 ih =>
    intro stored h
    have h1 := setup_logging_gate_truthy stored c h
    rw [run_calls]
    simp only [h1.1, h1.2, ih stored h]
    rfl

/-- C1 (counterexample): if the first resolved configuration is the empty
dictionary, the gate stores it, yet a later call invokes the side-effect
applier again — `if PROCESS_LOGGING_CONFIG:` treats the stored empty
dictionary as falsy, so "Set" is not terminal for every resolved
configuration. -/
theorem gate_terminality_cx :
    (setup_logging_gate none []).applied = true ∧
    (setup_logging_gate none []).state = some [] ∧
    (setup_logging_gate (setup_logging_gate none []).state
        [("version", CVal.leaf (.prim (.int 1)))]).applied = true := by decide

/-- C1 (amended): starting from the Unset state (`PROCESS_LOGGING_CONFIG` is
`None`), a `setup_logging` call with a non-empty resolved configuration `A`
invokes the side-effect applier exactly once, stores `A`, and is terminal: no
sequence of subsequent calls, whatever their configurations, ever invokes the
applier again or changes the stored configuration.  (When `A` is the empty
dictionary the stored value is falsy and the gate stays effectively unset, as
the counterexample shows.) -/
theorem gate_applies_once (A : Config) (cs : List Config) (h : A ≠ []) :
    (setup_logging_gate none A).applied = true ∧
    (setup_logging_gate none A).state = some A ∧
    (run_calls (setup_logging_gate none A).state cs).2 = 0 ∧
    (run_calls (setup_logging_gate none A).state cs).1 = some A := by
  have hst : (setup_logging_gate none A).state = some A := rfl
  refine ⟨rfl, rfl, ?_, ?_⟩ <;> rw [hst, run_calls_truthy cs A h]

/-- C1 (witness). -/
theorem gate_applies_once_w :
    ([("version", CVal.leaf (.prim (.int 1)))] : Config) ≠ [] ∧
    (setup_logging_gate none [("version", CVal.leaf (.prim (.int 1)))]).applied = true ∧
    (run_calls (setup_logging_gate none [("version", CVal.leaf (.prim (.int 1)))]).state
      [[], [("version", CVal.leaf (.prim (.int 2)))]]).2 = 0 :=
  ⟨by decide,
   (gate_applies_once [("version", CVal.leaf (.prim (.int 1)))]
      [[], [("version", CVal.leaf (.prim (.int 2)))]] (by decide)).1,
   (gate_applies_once [("version", CVal.leaf (.prim (.int 1)))]
      [[], [("version", CVal.leaf (.prim (.int 2)))]] (by decide)).2.2.1⟩

/-- C3 (counterexample): the stored process-wide configuration is overwritten
by a second call when the first stored configuration was the empty dictionary
(falsy), so "set at most once, never overwritten" fails as stated. -/
theorem stored_overwrite_cx :
    (setup_logging_gate none []).state = some [] ∧
    (setup_logging_gate (some []) [("version", CVal.leaf (.prim (.int 2)))]).state =
      some [("version", CVal.leaf (.prim (.int 2)))] ∧
    some ([] : Config) ≠ some [("version", CVal.leaf (.prim (.int 2)))] := by decide

/-- C3 (amended): once the stored process-wide configuration holds a non-empty
(truthy) configuration, no sequence of subsequent `setup_logging` calls
overwrites or mutates it; a stored empty configuration, being falsy, can be
overwritten (see the counterexample). -/
theorem stored_config_stable (stored : Config) (cs : List Config) (h : stored ≠ []) :
    (run_calls (some stored) cs).1 = some stored := by
  rw [run_calls_truthy cs stored h]

/-- C3 (witness). -/
theorem stored_config_stable_w :
    ([("version", CVal.leaf (.prim (.int 1)))] : Config) ≠ [] ∧
    (run_calls (some [("version", CVal.leaf (.prim (.int 1)))])
      [[("version", CVal.leaf (.prim (.int 2)))], []]).1 =
      some [("version", CVal.leaf (.prim (.int 1)))] :=
  ⟨by decide,
   stored_config_stable [("version", CVal.leaf (.prim (.int 1)))]
     [[("version", CVal.leaf (.prim (.int 2)))], []] (by decide)⟩

theorem config_diff_cons_ok {stored : Config} {k : String} {v sv : CVal}
    {rest d : Config} (h1 : alist_get stored k = some sv)
    (h2 : config_diff rest stored = .ok d) :
    config_diff ((k, v) :: rest) stored = .ok (if sv ≠ v then (k, v) :: d else d) := by
  rw [config_diff, h1, h2]

theorem config_diff_filter (stored : Config) : ∀ c : Config,
    (∀ e ∈ c, (alist_get stored e.1).isSome = true) →
    config_diff c stored =
      .ok (c.filter (fun e => decide (alist_get stored e.1 ≠ some e.2)))
  | [], _ => rfl
  | (k, v) :: rest, h => by
    obtain ⟨sv, hsv⟩ := Option.isSome_iff_exists.mp (h (k, v) (List.mem_cons_self _ _))
    rw [config_diff_cons_ok hsv (config_diff_filter stored rest
      (fun e he => h e (List.mem_cons_of_mem _ he)))]
    rw [List.filter_cons]
    by_cases hveq : sv = v
    · rw [if_neg (by rw [hveq]; exact fun hh => hh rfl)]
      have hcond : decide (alist_get stored (k, v).1 ≠ some (k, v).2) = false := by
        simp [hsv, hveq]
      rw [hcond]
      simp
    · rw [if_pos hveq]
      have hcond : decide (alist_get stored (k, v).1 ≠ some (k, v).2) = true := by
        simp [hsv]
        exact hveq
      rw [hcond]
      simp

/-- C2 (counterexample): with the gate in the Set state (non-empty stored
configuration), a call whose configuration has a top-level key absent from the
stored configuration raises an uncaught `KeyError` instead of returning
success. -/
theorem gate_set_keyerror_cx :
    (setup_logging_gate (some [("version", CVal.leaf (.prim (.int 1)))])
        [("incremental", CVal.leaf (.prim (.bool false)))]).keyError = some "incremental" ∧
    (setup_logging_gate (some [("version", CVal.leaf (.prim (.int 1)))])
        [("incremental", CVal.leaf (.prim (.bool false)))]).applied = false := by decide

/-- C2 (amended): with the gate in the Set state (non-empty stored
configuration), provided every top-level key of the new configuration is
present in the stored configuration, the call computes the top-level entries
of the new configuration whose value differs from the stored one, emits
exactly one warning carrying them when they exist and none when the
configurations agree (in particular none when the new configuration equals the
stored one), never invokes the side-effect applier, leaves the stored
configuration unchanged and raises nothing.  (When the new configuration has a
top-level key absent from the stored one, the call raises `KeyError`, as the
counterexample shows — still without invoking the applier.) -/
theorem gate_set_noop (stored c : Config) (h1 : stored ≠ [])
    (h2 : ∀ e ∈ c, (alist_get stored e.1).isSome = true) :
    (setup_logging_gate (some stored) c).applied = false ∧
    (setup_logging_gate (some stored) c).state = some stored ∧
    (setup_logging_gate (some stored) c).keyError = none ∧
    (setup_logging_gate (some stored) c).warning =
      (if (c.filter (fun e => decide (alist_get stored e.1 ≠ some e.2))).isEmpty then none
       else some (c.filter (fun e => decide (alist_get stored e.1 ≠ some e.2)))) ∧
    (distinctKeys stored = true → c = stored →
      (setup_logging_gate (some stored) c).warning = none) := by
  have hie : stored.isEmpty = false := by
    cases stored with
    | nil => exact absurd rfl h1
    | cons hd tl => rfl
  have hdiff := config_diff_filter stored c h2
  rw [setup_logging_gate, if_neg (by rw [hie]; exact Bool.false_ne_true), hdiff]
  refine ⟨rfl, rfl, rfl, rfl, ?_⟩
  intro hdk hcs
  subst hcs
  have hfil : c.filter (fun e => decide (alist_get c e.1 ≠ some e.2)) = [] := by
    apply List.filter_eq_nil_iff.mpr
    intro e he
    simp [distinctKeys_get_self c hdk e he]
  rw [hfil]
  rfl

/-- C2 (witness). -/
theorem gate_set_noop_w :
    (setup_logging_gate (some [("version", CVal.leaf (.prim (.int 1)))])
        [("version", CVal.leaf (.prim (.int 2)))]).warning =
      some [("version", CVal.leaf (.prim (.int 2)))] ∧
    (setup_logging_gate (some [("version", CVal.leaf (.prim (.int 1)))])
        [("version", CVal.leaf (.prim (.int 1)))]).warning = none ∧
    (setup_logging_gate (some [("version", CVal.leaf (.prim (.int 1)))])
        [("version", CVal.leaf (.prim (.int 2)))]).applied = false := by
  refine ⟨?_, ?_, ?_⟩
  · rw [(gate_set_noop [("version", CVal.leaf (.prim (.int 1)))]
      [("version", CVal.leaf (.prim (.int 2)))] (by decide) (by decide)).2.2.2.1]
    decide
  · exact (gate_set_noop [("version", CVal.leaf (.prim (.int 1)))]
      [("version", CVal.leaf (.prim (.int 1)))] (by decide) (by decide)).2.2.2.2
      (by decide) rfl
  · exact (gate_set_noop [("version", CVal.leaf (.prim (.int 1)))]
      [("version", CVal.leaf (.prim (.int 2)))] (by decide) (by decide)).1

/-- C9: the drift computation iterates only the new configuration's top-level
keys — every reported drift entry's key is a top-level key of the new
configuration (so a key present only in the stored configuration is never
reported) — and for a second call whose configuration contains a top-level key
absent from the stored configuration, the lookup in the stored configuration
raises an uncaught KeyError. -/
theorem drift_new_keys_only (stored c d : Config) (h : config_diff c stored = .ok d) :
    (∀ e ∈ d, e.1 ∈ c.map Prod.fst) ∧
    (setup_logging_gate (some [("a", CVal.leaf (.prim (.int 1)))])
        [("b", CVal.leaf (.prim (.int 2)))]).keyError = some "b" := by
  refine ⟨?_, by decide⟩
  induction c generalizing d with
  | nil =>
    rw [config_diff] at h
    have hd : ([] : Config) = d := by
      have h2 : Except.ok ([] : Config) = Except.ok d := h
      injection h2
    intro e he
    rw [← hd] at he
    simp at he
  | cons hd tl ih =>
    obtain ⟨k, v⟩ := hd
    rw [config_diff] at h
    cases hg : alist_get stored k with
    | none =>
      rw [hg] at h
      exact Except.noConfusion h
    | some sv =>
      rw [hg] at h
      cases hr : config_diff tl stored with
      | error k2 =>
        rw [hr] at h
        exact Except.noConfusion h
      | ok d2 =>
        rw [hr] at h
        have h2 : Except.ok (if sv ≠ v then (k, v) :: d2 else d2) = Except.ok d := h
        have hd : (if sv ≠ v then (k, v) :: d2 else d2) = d := by injection h2
        intro e he
        rw [← hd] at he
        rw [List.map_cons]
        by_cases hveq : sv = v
        · rw [if_neg (by rw [hveq]; exact fun hh => hh rfl)] at he
          exact List.mem_cons_of_mem _ (ih d2 hr e he)
        · rw [if_pos hveq] at he
          rcases List.mem_cons.mp he with rfl | he2
          · exact List.mem_cons_self _ _
          · exact List.mem_cons_of_mem _ (ih d2 hr e he2)

/-- C9 (witness). -/
theorem drift_new_keys_only_w :
    ("x" ∈ ([("x", CVal.leaf (.prim (.int 3)))] : Config).map Prod.fst) ∧
    (setup_logging_gate (some [("a", CVal.leaf (.prim (.int 1)))])
        [("b", CVal.leaf (.prim (.int 2)))]).keyError = some "b" :=
  ⟨(drift_new_keys_only [("x", CVal.leaf (.prim (.int 1)))]
      [("x", CVal.leaf (.prim (.int 3)))] [("x", CVal.leaf (.prim (.int 3)))]
      (by decide)).1 ("x", CVal.leaf (.prim (.int 3))) (by decide),
   (drift_new_keys_only [("x", CVal.leaf (.prim (.int 1)))]
      [("x", CVal.leaf (.prim (.int 3)))] [("x", CVal.leaf (.prim (.int 3)))]
      (by decide)).2⟩

theorem squashRuns_chars : ∀ (l : List Char) (flag : Bool),
    ∀ c ∈ squashRuns l flag, isAlnumAscii c = true ∨ c = '_'
  | [], _, c, hc => absurd hc (by rw [squashRuns]; simp)
  | c0 :: cs, flag, c, hc => by
    rw [squashRuns] at hc
    by_cases ha : isAlnumAscii c0 = true
    · rw [if_pos ha] at hc
      rcases List.mem_cons.mp hc with rfl | h2
      · exact Or.inl ha
      · exact squashRuns_chars cs false c h2
    · rw [if_neg ha] at hc
      by_cases hf : flag = true
      · rw [if_pos hf] at hc
        exact squashRuns_chars cs true c hc
      · rw [if_neg hf] at hc
        rcases List.mem_cons.mp hc with rfl | h2
        · exact Or.inr rfl
        · exact squashRuns_chars cs true c h2

theorem asciiUpperChar_alnum {c : Char} (h : isAlnumAscii c = true) :
    isUpperAlnumOrSep (asciiUpperChar c) = true := by
  rw [isAlnumAscii] at h
  rw [asciiUpperChar]
  by_cases hl : (97 ≤ c.toNat && c.toNat ≤ 122) = true
  · rw [if_pos hl]
    rw [Bool.and_eq_true, decide_eq_true_iff, decide_eq_true_iff] at hl
    obtain ⟨h1, h2⟩ := hl
    obtain ⟨n, hn⟩ : ∃ n, c.toNat = n := ⟨c.toNat, rfl⟩
    rw [hn] at h1 h2 ⊢
    interval_cases n <;> decide
  · rw [if_neg hl]
    rw [Bool.or_eq_true, Bool.or_eq_true, Bool.and_eq_true, Bool.and_eq_true,
      Bool.and_eq_true] at h
    simp only [decide_eq_true_iff] at h
    rw [Bool.and_eq_true] at hl
    simp only [decide_eq_true_iff] at hl
    rw [isUpperAlnumOrSep, Bool.or_eq_true, Bool.or_eq_true, Bool.and_eq_true,
      Bool.and_eq_true]
    simp only [decide_eq_true_iff]
    omega

/-- C5: for every namespace token and key-path, the derived environment
variable name — join the token and the key-path parts with an underscore,
collapse every maximal run of characters outside `[0-9a-zA-Z]` to a single
underscore, upper-case — is deterministic, and every character of the result
is an uppercase ASCII alphanumeric or the underscore separator. -/
theorem derive_env_name_spec (pfx : String) (kt : List String) :
    (∀ c ∈ (derive_env_name pfx kt).data, isUpperAlnumOrSep c = true) ∧
    (∀ pfx2 kt2, pfx2 = pfx → kt2 = kt →
      derive_env_name pfx2 kt2 = derive_env_name pfx kt) := by
  constructor
  · intro c hc
    have hc2 : c ∈ (squashRuns (pfx ++ "_" ++ String.intercalate "_" kt).data false).map
        asciiUpperChar := hc
    obtain ⟨c0, hc0, rfl⟩ := List.mem_map.mp hc2
    rcases squashRuns_chars _ _ c0 hc0 with ha | rfl
    · exact asciiUpperChar_alnum ha
    · decide
  · intro p2 k2 hp hk
    rw [hp, hk]

/-- C5 (witness). -/
theorem derive_env_name_spec_w :
    ('E' ∈ (derive_env_name "PREFECT_LOGGING" ["handlers", "console", "level"]).data) ∧
    isUpperAlnumOrSep 'E' = true ∧
    derive_env_name "PREFECT_LOGGING" ["handlers", "console", "level"] =
      "PREFECT_LOGGING_HANDLERS_CONSOLE_LEVEL" :=
  ⟨by decide,
   (derive_env_name_spec "PREFECT_LOGGING" ["handlers", "console", "level"]).1 'E' (by decide),
   by decide⟩

theorem substituteParts_missing (vars : List (String × String)) :
    ∀ tmpl : List TmplPart, (∃ n, TmplPart.var n ∈ tmpl ∧ lookupStr vars n = none) →
    ∃ n2, substituteParts vars tmpl = .error n2 ∧ lookupStr vars n2 = none
  | [], h => by
    obtain ⟨n, hn, _⟩ := h
    simp at hn
  | .lit s :: rest, h => by
    obtain ⟨n, hn, hl⟩ := h
    have hrest : ∃ n, TmplPart.var n ∈ rest ∧ lookupStr vars n = none := by
      rcases List.mem_cons.mp hn with heq | hm
      · exact absurd heq (by simp)
      · exact ⟨n, hm, hl⟩
    obtain ⟨n2, he, hl2⟩ := substituteParts_missing vars rest hrest
    refine ⟨n2, ?_, hl2⟩
    rw [substituteParts, he]
  | .var m :: rest, h => by
    cases hm : lookupStr vars m with
    | none => exact ⟨m, by rw [substituteParts, hm], hm⟩
    | some v =>
      obtain ⟨n, hn, hl⟩ := h
      have hrest : ∃ n, TmplPart.var n ∈ rest ∧ lookupStr vars n = none := by
        rcases List.mem_cons.mp hn with heq | hmem
        · have hnm : n = m := by injection heq
          rw [hnm, hm] at hl
          exact absurd hl (by simp)
        · exact ⟨n, hmem, hl⟩
      obtain ⟨n2, he, hl2⟩ := substituteParts_missing vars rest hrest
      refine ⟨n2, ?_, hl2⟩
      rw [substituteParts, hm, he]

/-- C6: if the template references a placeholder name not present in the
registry, resolution fails with a `TemplateError` (strict substitution, no
silent defaults), the whole `setup_logging` call aborts — the side-effect
applier is not invoked, no warning is emitted — and the stored process-wide
configuration is left exactly as it was. -/
theorem template_error_aborts (state : Option Config) (tmpl : List TmplPart)
    (registry : List (String × String)) (env : String → Option String)
    (h : ∃ n, TmplPart.var n ∈ tmpl ∧ lookupStr registry n = none) :
    (∃ n2, (setup_logging state tmpl registry env).resolveError =
        some (.templateError n2) ∧ lookupStr registry n2 = none) ∧
    (setup_logging state tmpl registry env).state = state ∧
    (setup_logging state tmpl registry env).applied = false ∧
    (setup_logging state tmpl registry env).warning = none := by
  obtain ⟨n2, he, hl2⟩ := substituteParts_missing registry tmpl h
  have hload : load_logging_config tmpl registry env =
      .error (.templateError n2) := by
    rw [load_logging_config, resolve_template, he]
  rw [setup_logging, hload]
  exact ⟨⟨n2, rfl, hl2⟩, rfl, rfl, rfl⟩

/-- C6 (witness): `${NO_SUCH_SETTING}` with a registry that only knows
`LOG_LEVEL` aborts with a `TemplateError` and leaves the state unchanged. -/
theorem template_error_aborts_w :
    (TmplPart.var "NO_SUCH_SETTING" ∈
        [TmplPart.lit "level: ", TmplPart.var "NO_SUCH_SETTING"] ∧
      lookupStr [("LOG_LEVEL", "INFO")] "NO_SUCH_SETTING" = none) ∧
    (setup_logging none [TmplPart.lit "level: ", TmplPart.var "NO_SUCH_SETTING"]
        [("LOG_LEVEL", "INFO")] (fun _ => none)).state = none ∧
    (setup_logging none [TmplPart.lit "level: ", TmplPart.var "NO_SUCH_SETTING"]
        [("LOG_LEVEL", "INFO")] (fun _ => none)).applied = false :=
  ⟨⟨by decide, by decide⟩,
   (template_error_aborts none [TmplPart.lit "level: ", TmplPart.var "NO_SUCH_SETTING"]
      [("LOG_LEVEL", "INFO")] (fun _ => none)
      ⟨"NO_SUCH_SETTING", by decide, by decide⟩).2.1,
   (template_error_aborts none [TmplPart.lit "level: ", TmplPart.var "NO_SUCH_SETTING"]
      [("LOG_LEVEL", "INFO")] (fun _ => none)
      ⟨"NO_SUCH_SETTING", by decide, by decide⟩).2.2.1⟩

/-- C8: the template `"level: ${LOG_LEVEL}"` against a registry in which
`LOG_LEVEL` resolves to `"INFO"` substitutes the placeholder and parses the
result into the structured configuration `{level: "INFO"}`. -/
theorem resolve_example :
    resolve_template [TmplPart.lit "level: ", TmplPart.var "LOG_LEVEL"]
        [("LOG_LEVEL", "INFO")] =
      .ok [("level", CVal.leaf (.prim (.str "INFO")))] := by decide

theorem add_extra_handler_fields (extra lg : LoggerState) (h0 : Nat) :
    (add_extra_handler extra lg h0).handlers = lg.handlers ++ [h0] ∧
    (add_extra_handler extra lg h0).propagate = extra.propagate ∧
    (add_extra_handler extra lg h0).level =
      (if lg.level = NOTSET then extra.level else lg.level) := by
  rw [add_extra_handler]
  by_cases hl : lg.level = NOTSET
  · simp [hl]
  · simp [hl]

theorem copy_extra_foldl : ∀ (hs : List Nat) (extra lg : LoggerState),
    (List.foldl (add_extra_handler extra) lg hs).handlers = lg.handlers ++ hs ∧
    (hs ≠ [] → (List.foldl (add_extra_handler extra) lg hs).propagate = extra.propagate) ∧
    (lg.level ≠ NOTSET → (List.foldl (add_extra_handler extra) lg hs).level = lg.level) ∧
    (lg.level = NOTSET → hs ≠ [] →
      (List.foldl (add_extra_handler extra) lg hs).level = extra.level)
  | [], extra, lg => by
    refine ⟨by simp, fun hne => absurd rfl hne, fun _ => rfl, fun _ hne => absurd rfl hne⟩
  | h0 :: hs2, extra, lg => by
    rw [List.foldl_cons]
    have hf := add_extra_handler_fields extra lg h0
    obtain ⟨ihh, ihp, ihl, ihl0⟩ := copy_extra_foldl hs2 extra (add_extra_handler extra lg h0)
    refine ⟨?_, ?_, ?_, ?_⟩
    · rw [ihh, hf.1, List.append_assoc, List.singleton_append]
    · intro _
      by_cases hh2 : hs2 = []
      · subst hh2
        simpa using hf.2.1
      · exact ihp hh2
    · intro hne
      have hl1 : (add_extra_handler extra lg h0).level = lg.level := by
        rw [hf.2.2, if_neg hne]
      rw [ihl (by rw [hl1]; exact hne), hl1]
    · intro hz _
      have hl1 : (add_extra_handler extra lg h0).level = extra.level := by
        rw [hf.2.2, if_pos hz]
      by_cases hx : extra.level = NOTSET
      · by_cases hh2 : hs2 = []
        · subst hh2
          simpa using hl1
        · rw [ihl0 (by rw [hl1, hx]) hh2]
      · rw [ihl (by rw [hl1]; exact hx), hl1]

/-- C10: the extra-logger copying step for one target logger: when the
`prefect.extra` logger has no handlers, the target logger is left entirely
unchanged (no level or propagation change); when it has at least one handler,
all its handlers are appended to the target's, the propagate flag is copied,
and the level is copied exactly when the target's level was `NOTSET` (a target
with a set level keeps it). -/
theorem extra_logger_copy (extra lg : LoggerState) :
    (extra.handlers = [] → copy_extra_config extra lg = lg) ∧
    (extra.handlers ≠ [] →
      (copy_extra_config extra lg).propagate = extra.propagate ∧
      (copy_extra_config extra lg).handlers = lg.handlers ++ extra.handlers) ∧
    (lg.level ≠ NOTSET → (copy_extra_config extra lg).level = lg.level) ∧
    (lg.level = NOTSET → extra.handlers ≠ [] →
      (copy_extra_config extra lg).level = extra.level) := by
  have hm := copy_extra_foldl extra.handlers extra lg
  rw [copy_extra_config]
  refine ⟨?_, fun hne => ⟨hm.2.1 hne, hm.1⟩, hm.2.2.1, hm.2.2.2⟩
  intro h0
  rw [h0]
  rfl

/-- C10 (witness). -/
theorem extra_logger_copy_w :
    copy_extra_config ⟨10, false, []⟩ ⟨0, true, [7]⟩ = ⟨0, true, [7]⟩ ∧
    (copy_extra_config ⟨10, false, [1, 2]⟩ ⟨0, true, [7]⟩).level = 10 ∧
    (copy_extra_config ⟨10, false, [1, 2]⟩ ⟨0, true, [7]⟩).handlers = [7, 1, 2] ∧
    (copy_extra_config ⟨10, false, [1, 2]⟩ ⟨5, true, [7]⟩).level = 5 := by
  refine ⟨(extra_logger_copy ⟨10, false, []⟩ ⟨0, true, [7]⟩).1 rfl, ?_, ?_, ?_⟩
  · exact (extra_logger_copy ⟨10, false, [1, 2]⟩ ⟨0, true, [7]⟩).2.2.2 rfl (by decide)
  · rw [((extra_logger_copy ⟨10, false, [1, 2]⟩ ⟨0, true, [7]⟩).2.1 (by decide)).2]
    rfl
  · exact (extra_logger_copy ⟨10, false, [1, 2]⟩ ⟨5, true, [7]⟩).2.2.1 (by decide)
